import Mathlib

/-!
Shallow embedding of the `ml-document-system` repository (Python/Django document
processing pipeline) and proofs about its specified behaviour.

Python strings are modelled as Lean `String` / `List Char`; Python dicts that the
code builds key-by-key are modelled as association lists in insertion order;
fallible Python code (code that can raise) is modelled with `Except`; the external
OCR engine, the NER model and the regular-expression engine are black-box
collaborators and are passed in as function parameters; Python whitespace and
word-character classes are modelled over the ASCII range.
-/

namespace MLDoc

/-- Python's `\s` / `str.strip()` whitespace class (ASCII range). -/
def isSpace (c : Char) : Bool :=
  c = ' ' || c = '\t' || c = '\n' || c = '\r' || c = '\x0b' || c = '\x0c'

/-- Python's `\w` word-character class (ASCII range): alphanumerics and `_`. -/
def isWordChar (c : Char) : Bool :=
  c.isAlphanum || c = '_'

/-- The allow-list of `re.sub(r'[^\w\s.,!?;:()\-$@]', '', text)` in
`src/processor/utils.py` (`clean_text`): word characters, whitespace and the
listed punctuation survive; every other character is deleted. -/
def allowedChar (c : Char) : Bool :=
  isWordChar c || isSpace c ||
    ['.', ',', '!', '?', ';', ':', '(', ')', '-', '$', '@'].contains c

/-- `re.sub(r'\s+', ' ', text)`: collapse each maximal whitespace run to a single
space.  The flag records whether the previous character was whitespace. -/
def collapseWsAux : Bool → List Char → List Char
  | _, [] => []
  | prevSpace, c :: rest =>
    if isSpace c then
      if prevSpace then collapseWsAux true rest
      else ' ' :: collapseWsAux true rest
    else c :: collapseWsAux false rest

def collapseWs (l : List Char) : List Char := collapseWsAux false l

/-- `str.lstrip()` / left part of `str.strip()`. -/
def dropLeadingWs (l : List Char) : List Char := l.dropWhile isSpace

/-- `str.rstrip()` / right part of `str.strip()`. -/
def dropTrailingWs (l : List Char) : List Char := (l.reverse.dropWhile isSpace).reverse

/-- Python `str.strip()` with no arguments. -/
def pyStrip (l : List Char) : List Char := dropTrailingWs (dropLeadingWs l)

/-- Python `str.split(sep)` for a single-character separator (keeps empty parts,
exactly like Python's one-argument `split`). -/
def splitOnChar (sep : Char) : List Char → List (List Char)
  | [] => [[]]
  | c :: rest =>
    match splitOnChar sep rest with
    | [] => [[c]]
    | cur :: others =>
      if c = sep then [] :: cur :: others else (c :: cur) :: others

/-- `clean_text` from `src/processor/utils.py` (lines 41-58):
`if not text: return ""`; collapse whitespace runs to single spaces; delete
characters outside the allow-list; split on newlines; keep only lines whose
stripped form is longer than 2 characters; join with single spaces and strip. -/
def cleanText (s : String) : String :=
  if s.data.isEmpty then "" else
  let t1 := collapseWs s.data
  let t2 := t1.filter allowedChar
  let lines := splitOnChar '\n' t2
  let kept := lines.filterMap fun l =>
    let l' := pyStrip l
    if l'.length > 2 then some l' else none
  String.mk (pyStrip (List.intercalate [' '] kept))

/-- `clean_text` from the standalone `src/utils.py` (lines 32-39):
`if not text: return ""`; collapse whitespace runs; strip. -/
def cleanTextSimple (s : String) : String :=
  if s.data.isEmpty then "" else
  String.mk (pyStrip (collapseWs s.data))

-- sanity checks
example : cleanText "a # b" = "a  b" := by decide
example : cleanText "a  b" = "a b" := by decide
example : cleanText "" = "" := by rfl
example : cleanTextSimple "  hello   world  " = "hello world" := by decide
example : splitOnChar '\n' "a\nb".data = ["a".data, "b".data] := by decide

/-- Contiguous-sublist test: is `needle` a prefix of some suffix of the list? -/
def substrListB (needle : List Char) : List Char → Bool
  | [] => needle.isEmpty
  | c :: rest => needle.isPrefixOf (c :: rest) || substrListB needle rest

/-- Python `needle in haystack` on strings: substring containment. -/
def substrB (needle hay : String) : Bool := substrListB needle.data hay.data

/-- `DOCUMENT_CATEGORIES` from `src/processor/config.py` (lines 8-25). -/
def DOCUMENT_CATEGORIES : List String :=
  ["advertisement", "budget", "email", "file_folder", "form",
   "handwritten", "invoice", "letter", "memo", "news_article",
   "presentation", "questionnaire", "resume", "scientific_publication",
   "scientific_report", "specification"]

/-- `file_path.split(os.sep)`; `os.sep` is modelled as the POSIX separator `/`. -/
def pathParts (p : String) : List String :=
  (splitOnChar '/' p.data).map String.mk

/-- The `for part in path_parts: if part in DOCUMENT_CATEGORIES: return part`
loop of `_classify_document` (`src/processor/pipeline.py` lines 100-103). -/
def firstCategoryPart : List String → Option String
  | [] => none
  | p :: rest =>
    if DOCUMENT_CATEGORIES.contains p then some p else firstCategoryPart rest

/-- Python `str.lower()` (character-wise, ASCII-faithful). -/
def pyLower (s : String) : String := String.mk (s.data.map Char.toLower)

/-- Python `str.upper()` (character-wise, ASCII-faithful). -/
def pyUpper (s : String) : String := String.mk (s.data.map Char.toUpper)

/-- `any(word in text_lower for word in words)`. -/
def keywordHit (words : List String) (textLower : String) : Bool :=
  words.any fun w => substrB w textLower

def invoiceWords : List String := ["invoice", "bill", "payment", "amount", "$"]
def formWords : List String := ["form", "application", "request"]
def resumeWords : List String := ["resume", "cv", "experience", "education"]
def letterWords : List String := ["letter", "dear", "sincerely"]
def memoWords : List String := ["memo", "memorandum", "subject:"]

/-- `_classify_document` from `src/processor/pipeline.py` (lines 94-119):
first path component that is a known category wins; otherwise an if/elif
keyword cascade over the lower-cased text; otherwise `"unknown"`. -/
def classifyDocument (filePath text : String) : String :=
  match firstCategoryPart (pathParts filePath) with
  | some part => part
  | none =>
    let textLower := pyLower text
    if keywordHit invoiceWords textLower then "invoice"
    else if keywordHit formWords textLower then "form"
    else if keywordHit resumeWords textLower then "resume"
    else if keywordHit letterWords textLower then "letter"
    else if keywordHit memoWords textLower then "memo"
    else "unknown"

-- sanity checks
example : classifyDocument "data/invoice/img001.jpg" "dear sir" = "invoice" := by decide
example : classifyDocument "invoice/letter/doc.jpg" "" = "invoice" := by decide
example : classifyDocument "x/y.jpg" "please see the attached BILL" = "invoice" := by decide
example : classifyDocument "x/y.jpg" "nothing here" = "unknown" := by decide

/-- `list(dict.fromkeys(matches))` (`src/processor/utils.py` line 75): remove
duplicates while preserving first-seen order.  `seen` accumulates the keys
already emitted. -/
def dedupAux (seen : List String) : List String → List String
  | [] => []
  | x :: xs =>
    if x ∈ seen then dedupAux seen xs else x :: dedupAux (x :: seen) xs

def dedupFirstSeen (l : List String) : List String := dedupAux [] l

/-- `ENTITY_PATTERNS` from `src/processor/config.py` (lines 28-52): the fixed
six-kind regex pattern table (the pattern strings are kept verbatim as data;
the regex engine itself is a black box passed in as `findallCI`). -/
def ENTITY_PATTERNS : List (String × List String) :=
  [("email", ["\\b[A-Za-z0-9._%+-]+@[A-Za-z0-9.-]+\\.[A-Z|a-z]\x7b2,\x7d\\b"]),
   ("phone", ["\\b\\d\x7b3\x7d[-.]?\\d\x7b3\x7d[-.]?\\d\x7b4\x7d\\b",
              "\\(\\d\x7b3\x7d\\)\\s*\\d\x7b3\x7d[-.]?\\d\x7b4\x7d\\b"]),
   ("date", ["\\b\\d\x7b1,2\x7d[/-]\\d\x7b1,2\x7d[/-]\\d\x7b2,4\x7d\\b",
             "\\b\\d\x7b4\x7d[-/]\\d\x7b1,2\x7d[-/]\\d\x7b1,2\x7d\\b",
             "\\b(?:Jan|Feb|Mar|Apr|May|Jun|Jul|Aug|Sep|Oct|Nov|Dec)[a-z]*\\s+\\d\x7b1,2\x7d,?\\s+\\d\x7b4\x7d\\b"]),
   ("amount", ["\\$\\d\x7b1,3\x7d(?:,\\d\x7b3\x7d)*(?:\\.\\d\x7b2\x7d)?",
               "\\b\\d\x7b1,3\x7d(?:,\\d\x7b3\x7d)*(?:\\.\\d\x7b2\x7d)?\\s*(?:USD|dollars?)\\b"]),
   ("invoice_number", ["(?:Invoice|INV)[\\s#-]*(\\d+)", "(?:Bill|Receipt)[\\s#-]*(\\d+)"]),
   ("ssn", ["\\b\\d\x7b3\x7d-\\d\x7b2\x7d-\\d\x7b4\x7d\\b"])]

/-- `extract_entities` from `src/processor/utils.py` (lines 61-77).  For each
entity kind, run every pattern in its list over the text (`re.findall` with
`re.IGNORECASE` is the black-box `findallCI`), accumulate the matches, and add
the kind to the result dict only when at least one match was found, with the
match list deduplicated in first-seen order. -/
def extractEntities (findallCI : String → String → List String)
    (text : String) (patterns : List (String × List String)) :
    List (String × List String) :=
  patterns.foldl
    (fun acc kpl =>
      let ms := kpl.2.flatMap fun pat => findallCI pat text
      if ms.isEmpty then acc else acc ++ [(kpl.1, dedupFirstSeen ms)])
    []

-- sanity check: omission of empty kinds, first-seen dedup
example :
    extractEntities
      (fun pat _ => if pat = "b" then ["x", "y", "x"] else [])
      "t" [("k1", ["a"]), ("k2", ["b"])] = [("k2", ["x", "y"])] := by decide

/-! ## The model-assisted entity extractor (`_extract_entities_with_llm`) -/

/-- One aggregated span returned by the NER pipeline: a dict with keys
`entity_group`, `word` and `score`.  The floating-point score is modelled as a
rational number. -/
structure NerEnt where
  entity_group : String
  word : String
  score : ℚ
deriving DecidableEq

/-- The black-box regular-expression engine used by `_extract_entities_with_llm`
(`src/processor/pipeline.py` lines 164-180) and by `extract_entities`:
`findall` is `re.findall` without flags (patterns with no or one capture group,
returning whole-match / group strings), `findallTriples` is `re.findall` on the
three-group phone pattern (returning 3-tuples of group strings), and
`findallCI` is `re.findall` with `re.IGNORECASE`. -/
structure RegexOracle where
  findall : String → String → List String
  findallTriples : String → String → List (String × String × String)
  findallCI : String → String → List String

def emailPattern : String := "\\b[A-Za-z0-9._%+-]+@[A-Za-z0-9.-]+\\.[A-Z|a-z]\x7b2,\x7d\\b"
def phonePattern : String :=
  "\\b(?:\\+?1[-.\\s]?)?\\(?([0-9]\x7b3\x7d)\\)?[-.\\s]?([0-9]\x7b3\x7d)[-.\\s]?([0-9]\x7b4\x7d)\\b"
def moneyPattern : String := "\\$\\s*\\d+(?:,\\d\x7b3\x7d)*(?:\\.\\d\x7b2\x7d)?"

/-- An entity dict as built by `_extract_entities_with_llm`: a Python dict from
kind label to list of strings, modelled as an association list in insertion
order. -/
abbrev EntityDict := List (String × List String)

/-- The dict initialised at `src/processor/pipeline.py` lines 126-135: all 8
kinds present, each mapped to an empty list. -/
def initialEntities : EntityDict :=
  [("persons", []), ("organizations", []), ("locations", []), ("dates", []),
   ("amounts", []), ("emails", []), ("phones", []), ("addresses", [])]

/-- `entities[key].extend(values)` for a key that is present in the dict (the
only way the pipeline uses it; on a missing key Python would raise `KeyError`,
which never happens here because all 8 keys are initialised up front). -/
def dictExtend (d : EntityDict) (key : String) (values : List String) : EntityDict :=
  d.map fun kv => if kv.1 = key then (kv.1, kv.2 ++ values) else kv

/-- `entities[key]` lookup (defaulting to `[]`; all keys used are present). -/
def dictGet (d : EntityDict) (key : String) : List String :=
  match d.find? fun kv => kv.1 = key with
  | some kv => kv.2
  | none => []

/-- The `0.8` confidence threshold of `src/processor/pipeline.py` line 150,
written as the rational 4/5 (given as an explicit numerator/denominator pair so
that it evaluates inside the kernel). -/
def nerScoreThreshold : ℚ := ⟨4, 5, by decide, by decide⟩

theorem nerScoreThreshold_eq : nerScoreThreshold = 4/5 := by
  unfold nerScoreThreshold
  rw [Rat.mk'_eq_divInt, Rat.divInt_eq_div]
  norm_num

/-- The body of the `for entity in ner_results` loop
(`src/processor/pipeline.py` lines 144-162): keep spans with score > 0.8 and
route them by upper-cased `entity_group`; `MISC` spans go to `emails` if the
lower-cased text contains `@` or `email`, else to `dates` if it contains a
digit, else nowhere. -/
def routeEntity (d : EntityDict) (e : NerEnt) : EntityDict :=
  let entityType := pyUpper e.entity_group
  let entityText := String.mk (pyStrip e.word.data)
  if e.score > nerScoreThreshold then
    if entityType = "PER" ∨ entityType = "PERSON" then
      dictExtend d "persons" [entityText]
    else if entityType = "ORG" ∨ entityType = "ORGANIZATION" then
      dictExtend d "organizations" [entityText]
    else if entityType = "LOC" ∨ entityType = "LOCATION" then
      dictExtend d "locations" [entityText]
    else if entityType = "MISC" then
      if keywordHit ["@", "email"] (pyLower entityText) then
        dictExtend d "emails" [entityText]
      else if entityText.data.any Char.isDigit then
        dictExtend d "dates" [entityText]
      else d
    else d
  else d

/-- `'-'.join(phone)` for a 3-tuple of regex groups. -/
def joinDash (p : String × String × String) : String :=
  p.1 ++ "-" ++ p.2.1 ++ "-" ++ p.2.2

/-- The per-key cleanup at `src/processor/pipeline.py` lines 182-185:
`entities[key] = list(set(entities[key]))` followed by dropping entries whose
stripped length is ≤ 1.  `list(set(...))` removes duplicates in an order Python
leaves unspecified; it is modelled as first-seen-order deduplication (every
property proved about it is order-independent). -/
def cleanupEntities (d : EntityDict) : EntityDict :=
  d.map fun kv =>
    (kv.1, (dedupFirstSeen kv.2).filter fun item => (pyStrip item.data).length > 1)

/-- The names defined at module scope in `src/processor/utils.py` (its imports
and its five function definitions).  `ENTITY_PATTERNS` is *not* among them —
it is defined in `src/processor/config.py`. -/
def processorUtilsExports : List String :=
  ["os", "re", "cv2", "pytesseract", "Image", "np", "List", "Dict", "Any",
   "extract_text_from_image", "clean_text", "extract_entities",
   "get_document_files", "validate_file"]

def importErrorMsg : String :=
  "ImportError: cannot import name ENTITY_PATTERNS from processor.utils"

/-- `_extract_entities_with_llm` from `src/processor/pipeline.py`
(lines 121-195).  The NER pipeline is `none` when its initialisation failed,
otherwise a black-box function from the (truncated) text to either a raised
exception (`Except.error`) or a list of spans.  A raised result models the
Python function raising; the `except` handler at lines 189-193 executes
`from .utils import extract_entities, ENTITY_PATTERNS`, which succeeds only if
both names exist in `processor.utils` — otherwise the handler itself raises
`ImportError`, which propagates to the caller. -/
def extractEntitiesWithLlm
    (nerPipeline : Option (String → Except String (List NerEnt)))
    (rex : RegexOracle) (text : String) (_documentType : String) :
    Except String EntityDict :=
  match nerPipeline with
  | none => .ok initialEntities
  | some ner =>
    if (pyStrip text.data).isEmpty then .ok initialEntities
    else
      match ner (String.mk (text.data.take 512)) with
      | .error _ =>
        -- `except Exception:` branch, lines 189-193
        if ["extract_entities", "ENTITY_PATTERNS"].all
            (fun n => processorUtilsExports.contains n) then
          .ok (extractEntities rex.findallCI text ENTITY_PATTERNS)
        else
          .error importErrorMsg
      | .ok nerResults =>
        let d1 := nerResults.foldl routeEntity initialEntities
        let d2 := dictExtend d1 "emails" (rex.findall emailPattern text)
        let d3 := dictExtend d2 "phones"
          ((rex.findallTriples phonePattern text).map joinDash)
        let d4 := dictExtend d3 "amounts" (rex.findall moneyPattern text)
        .ok (cleanupEntities d4)

instance exceptDecEq {ε α : Type} [DecidableEq ε] [DecidableEq α] :
    DecidableEq (Except ε α) := fun a b =>
  match a, b with
  | .error e, .error f =>
    if h : e = f then .isTrue (by rw [h])
    else .isFalse (by intro hh; cases hh; exact h rfl)
  | .error _, .ok _ => .isFalse (by intro h; cases h)
  | .ok _, .error _ => .isFalse (by intro h; cases h)
  | .ok x, .ok y =>
    if h : x = y then .isTrue (by rw [h])
    else .isFalse (by intro hh; cases hh; exact h rfl)

-- sanity checks
example :
    extractEntitiesWithLlm (some fun _ => .error "timeout")
      ⟨fun _ _ => [], fun _ _ => [], fun _ _ => []⟩ "hello world text" "unknown"
      = .error importErrorMsg := by decide
example :
    extractEntitiesWithLlm none
      ⟨fun _ _ => [], fun _ _ => [], fun _ _ => []⟩ "hello" "unknown"
      = .ok initialEntities := by rfl
example :
    extractEntitiesWithLlm
      (some fun _ => .ok [⟨"PER", " John Smith ", ⟨9, 10, by decide, by decide⟩⟩,
                          ⟨"ORG", "Acme", ⟨1, 2, by decide, by decide⟩⟩])
      ⟨fun pat _ => if pat = emailPattern then ["ab@cd.com", "ab@cd.com"] else [],
       fun _ _ => [("555", "123", "4567")], fun _ _ => []⟩
      "John Smith ab@cd.com 555-123-4567" "letter"
      = .ok [("persons", ["John Smith"]), ("organizations", []), ("locations", []),
             ("dates", []), ("amounts", []), ("emails", ["ab@cd.com"]),
             ("phones", ["555-123-4567"]), ("addresses", [])] := by decide

/-! ## The pipeline orchestrator (`DocumentPipeline`) -/

/-- `os.path.basename` for `/`-separated paths. -/
def basename (p : String) : String :=
  String.mk ((splitOnChar '/' p.data).getLastD [])

/-- `len(text.split())`: Python's no-argument `split` breaks on whitespace runs
and drops empty parts, so this counts the maximal non-whitespace runs. -/
def countWordsAux : Bool → List Char → Nat
  | _, [] => 0
  | inWord, c :: rest =>
    if isSpace c then countWordsAux false rest
    else (if inWord then 0 else 1) + countWordsAux true rest

def wordCount (s : String) : Nat := countWordsAux false s.data

/-- The document record built at `src/processor/pipeline.py` lines 74-83. -/
structure DocData where
  id : String
  filename : String
  file_path : String
  category : String
  text : String
  entities : EntityDict
  word_count : Nat
  timestamp : String
deriving DecidableEq

/-- Observable pipeline state: the ChromaDB collection contents plus logs of
the calls made to the external collaborators.  `addCalls` records one entry
per `collection.add` invocation (the list of ids passed to it); `store` is the
collection keyed by id; `sinkCalls` records one entry per `_save_results`
invocation (the ids written to the JSON/CSV sink).  Embeddings are opaque and
not tracked. -/
structure PState where
  addCalls : List (List String)
  store : List (String × DocData)
  sinkCalls : List (List String)
deriving DecidableEq

def initState : PState := ⟨[], [], []⟩

/-- One id/document write into the collection.  Modelled from the spec:
ChromaDB's `collection.add` is outside this repository; the spec's Vector
Store Adapter contract declares it an upsert-by-id ("collisions silently
overwrite", "upsert(ids, texts, embeddings, metadata)"), so a duplicate id
replaces the stored record in place and a new id is appended. -/
def upsertOne (store : List (String × DocData)) (doc : DocData) :
    List (String × DocData) :=
  if store.any (fun kv => kv.1 = doc.id) then
    store.map fun kv => if kv.1 = doc.id then (doc.id, doc) else kv
  else
    store ++ [(doc.id, doc)]

/-- `_store_documents` from `src/processor/pipeline.py` (lines 225-257) (the
standalone `src/main.py` lines 99-131 are line-for-line the same logic):
an empty batch returns without touching the collection; otherwise the ids,
texts and metadata are collected in order and handed to `collection.add` in a
single call. -/
def storeDocuments (st : PState) (documents : List DocData) : PState :=
  if documents.isEmpty then st
  else
    { st with
      addCalls := st.addCalls ++ [documents.map (·.id)],
      store := documents.foldl upsertOne st.store }

/-- `_save_results` from `src/processor/pipeline.py` (lines 259-283): writes
the batch to the JSON and CSV sinks (modelled as one sink invocation recording
the ids written). -/
def saveResults (st : PState) (documents : List DocData) : PState :=
  { st with sinkCalls := st.sinkCalls ++ [documents.map (·.id)] }

/-- `process_single_document` from `src/processor/pipeline.py` (lines 55-92).
The OCR engine is the black-box `ocr` (it returns `""` rather than raising,
cf. `extract_text_from_image`); `now` is the
`datetime.now().isoformat()` timestamp.  Any exception escaping the body —
in particular the `ImportError` raised by the entity-extraction fallback —
is caught by the `except` at lines 90-92 and turned into `None`, with no
store call made. -/
def processSingleDocument
    (ocr : String → String)
    (nerPipeline : Option (String → Except String (List NerEnt)))
    (rex : RegexOracle) (now : String)
    (st : PState) (filePath : String) : Option DocData × PState :=
  let text := ocr filePath
  if text.data.isEmpty || (pyStrip text.data).length < 10 then (none, st)
  else
    let cleanedText := cleanText text
    let category := classifyDocument filePath cleanedText
    match extractEntitiesWithLlm nerPipeline rex cleanedText category with
    | .error _ => (none, st)
    | .ok entities =>
      let docData : DocData :=
        { id := category ++ "_" ++ basename filePath,
          filename := basename filePath,
          file_path := filePath,
          category := category,
          text := cleanedText,
          entities := entities,
          word_count := wordCount cleanedText,
          timestamp := now }
      (some docData, storeDocuments st [docData])

/-- The per-file loop of `process_documents` (`src/processor/pipeline.py`
lines 208-211): process each file, collecting the successful records. -/
def processLoop
    (ocr : String → String)
    (nerPipeline : Option (String → Except String (List NerEnt)))
    (rex : RegexOracle) (now : String) :
    List String → List DocData × PState → List DocData × PState
  | [], acc => acc
  | f :: fs, (docs, st) =>
    match processSingleDocument ocr nerPipeline rex now st f with
    | (some d, st') => processLoop ocr nerPipeline rex now fs (docs ++ [d], st')
    | (none, st') => processLoop ocr nerPipeline rex now fs (docs, st')

/-- `process_documents` from `src/processor/pipeline.py` (lines 197-223).
`get_document_files(data_path)[:limit]` is modelled by taking the first
`limit` entries of the given file list (the directory walk is I/O).  When no
document succeeds the function logs a warning and returns `[]` without calling
`_store_documents` or `_save_results`; otherwise it stores the whole batch and
writes the sinks. -/
def processDocuments
    (ocr : String → String)
    (nerPipeline : Option (String → Except String (List NerEnt)))
    (rex : RegexOracle) (now : String)
    (files : List String) (limit : Nat) (st : PState) :
    List DocData × PState :=
  let selected := files.take limit
  let (processedDocs, st1) := processLoop ocr nerPipeline rex now selected ([], st)
  if processedDocs.isEmpty then ([], st1)
  else
    let st2 := storeDocuments st1 processedDocs
    let st3 := saveResults st2 processedDocs
    (processedDocs, st3)

/-! ## The upload endpoint's confidence heuristic -/

/-- Python's two-argument `min`. -/
def pyMin (a b : ℚ) : ℚ := if a ≤ b then a else b

/-- `_calculate_confidence` from `src/processor/views.py` (lines 124-147):
base 0.5; +0.2 for text length > 100 and +0.1 for > 500; +0.1 for at least one
extracted entity and +0.1 for more than 3; +0.1 for a category other than
`"unknown"`; capped at 0.95.  The float constants are the exact rationals
1/2, 1/5, 1/10 and 19/20. -/
def calculateConfidence (doc : DocData) : ℚ :=
  let confidence : ℚ := ⟨1, 2, by decide, by decide⟩
  let textLength := doc.text.length
  let confidence := if textLength > 100
    then confidence + ⟨1, 5, by decide, by decide⟩ else confidence
  let confidence := if textLength > 500
    then confidence + ⟨1, 10, by decide, by decide⟩ else confidence
  let totalEntities := (doc.entities.map fun kv => kv.2.length).sum
  let confidence := if totalEntities > 0
    then confidence + ⟨1, 10, by decide, by decide⟩ else confidence
  let confidence := if totalEntities > 3
    then confidence + ⟨1, 10, by decide, by decide⟩ else confidence
  let confidence := if doc.category ≠ "unknown"
    then confidence + ⟨1, 10, by decide, by decide⟩ else confidence
  pyMin confidence ⟨19, 20, by decide, by decide⟩

-- sanity checks
example :
    (processDocuments (fun _ => "") none ⟨fun _ _ => [], fun _ _ => [], fun _ _ => []⟩
      "t0" ["a.jpg", "b.jpg"] 50 initState).1 = [] := by decide
example :
    (processDocuments (fun _ => "") none ⟨fun _ _ => [], fun _ _ => [], fun _ _ => []⟩
      "t0" ["a.jpg", "b.jpg"] 50 initState).2 = initState := by decide

/-! ## Claim C9: the upload confidence score lies in [0.5, 0.95] -/

/-- Claim C9: for every processed document record, `_calculate_confidence`
returns a value in the closed interval [0.5, 0.95]: it starts at the base 0.5,
adds fixed increments for text length, entity counts and a non-unknown
category, and is capped at 0.95 by the final `min`. -/
theorem calculateConfidence_mem_range (doc : DocData) :
    1/2 ≤ calculateConfidence doc ∧ calculateConfidence doc ≤ 19/20 := by
  simp only [calculateConfidence, pyMin, Rat.mk'_eq_divInt, Rat.divInt_eq_div]
  split_ifs <;> constructor <;> first
    | (rename_i hcap; exact hcap)
    | norm_num

/-! ## Claim C1: the fallback on NER failure -/

/-- A trivial concrete regex oracle (a text with no pattern matches). -/
def rexTriv : RegexOracle := ⟨fun _ _ => [], fun _ _ => [], fun _ _ => []⟩

/-- Claim C1 (code bug): when the NER model call raises, the `except` handler
of `_extract_entities_with_llm` executes
`from .utils import extract_entities, ENTITY_PATTERNS`, but `processor.utils`
does not define `ENTITY_PATTERNS` (it lives in `processor.config`), so the
handler raises `ImportError` instead of returning the six-kind regex-only
extraction the claim (and the handler's own "Fallback to basic extraction"
comment) promise.  Evaluated at a concrete failing input: a non-blank text
whose model call raises a timeout. -/
theorem llmExtract_model_failure_raises_import_error :
    extractEntitiesWithLlm (some fun _ => .error "model timeout") rexTriv
        "Invoice 4521 payment due" "invoice" = .error importErrorMsg ∧
    ∀ d : EntityDict,
      extractEntitiesWithLlm (some fun _ => .error "model timeout") rexTriv
        "Invoice 4521 payment due" "invoice" ≠ .ok d := by
  have h : extractEntitiesWithLlm (some fun _ => .error "model timeout") rexTriv
      "Invoice 4521 payment due" "invoice" = .error importErrorMsg := by decide
  exact ⟨h, fun d hd => Except.noConfusion (h ▸ hd)⟩

/-! ## Claim C2: storage is an upsert by id -/

/-- Lookup by id in the collection (the record stored under a given id). -/
def storeLookup (store : List (String × DocData)) (key : String) : Option DocData :=
  match store.find? fun kv => kv.1 = key with
  | some kv => some kv.2
  | none => none

theorem find_map_update (s : List (String × DocData)) (doc : DocData)
    (h : doc.id ∈ s.map fun kv => kv.1) :
    (s.map fun kv => if kv.1 = doc.id then (doc.id, doc) else kv).find?
      (fun kv => kv.1 = doc.id) = some (doc.id, doc) := by
  induction s with
  | nil => simp at h
  | cons kv rest ih =>
    by_cases hk : kv.1 = doc.id
    · simp [List.find?, hk]
    · have hmem : doc.id ∈ rest.map fun kv => kv.1 := by
        rw [List.map_cons] at h
        rcases List.mem_cons.mp h with h1 | h1
        · exact absurd h1.symm hk
        · exact h1
      simp [List.find?, hk, ih hmem]

theorem keys_map_update (s : List (String × DocData)) (doc : DocData) :
    ((s.map fun kv => if kv.1 = doc.id then (doc.id, doc) else kv).map fun kv => kv.1)
      = s.map fun kv => kv.1 := by
  rw [List.map_map]
  apply List.map_congr_left
  intro kv _
  by_cases hk : kv.1 = doc.id <;> simp [hk]

/-- Claim C2: storing a record whose id (category + filename) is already
present in the collection overwrites the existing entry in place: afterwards
the id maps to the new record, the key set is unchanged (no duplicate entry is
created), the collection size is unchanged, and the operation returns normally
(it is a total function — no failure path).  The conjunct about
`processSingleDocument` records that the id is exactly
`category + "_" + filename`, so reprocessing a file of the same category and
name hits the same id.  ChromaDB itself is outside the repository; its
`collection.add` is modelled from the spec's Vector Store Adapter contract
(upsert-by-id, "collisions silently overwrite"). -/
theorem storeDocuments_upsert (st : PState) (doc : DocData)
    (hnd : (st.store.map fun kv => kv.1).Nodup)
    (hmem : doc.id ∈ st.store.map fun kv => kv.1) :
    storeLookup (storeDocuments st [doc]).store doc.id = some doc ∧
    ((storeDocuments st [doc]).store.map fun kv => kv.1).Nodup ∧
    (storeDocuments st [doc]).store.length = st.store.length ∧
    ((storeDocuments st [doc]).store.map fun kv => kv.1) = st.store.map fun kv => kv.1 := by
  have hany : st.store.any (fun kv => kv.1 = doc.id) = true := by
    rw [List.any_eq_true]
    rcases List.mem_map.mp hmem with ⟨kv, hkv, hid⟩
    exact ⟨kv, hkv, by simp [hid]⟩
  have hstore : (storeDocuments st [doc]).store
      = st.store.map fun kv => if kv.1 = doc.id then (doc.id, doc) else kv := by
    simp [storeDocuments, upsertOne, hany]
  refine ⟨?_, ?_, ?_, ?_⟩
  · rw [hstore]
    simp [storeLookup, find_map_update st.store doc hmem]
  · rw [hstore, keys_map_update]
    exact hnd
  · rw [hstore, List.length_map]
  · rw [hstore, keys_map_update]

/-- Witness for C2 at a concrete collection: a record with id
`invoice_a.jpg` is already stored; re-storing a record with the same id
replaces it without duplicating or failing. -/
theorem storeDocuments_upsert_witness :
    (let old : DocData :=
      ⟨"invoice_a.jpg", "a.jpg", "invoice/a.jpg", "invoice", "old text", [], 2, "t0"⟩
     let newer : DocData :=
      ⟨"invoice_a.jpg", "a.jpg", "data/invoice/a.jpg", "invoice", "new text", [], 2, "t1"⟩
     let st : PState := ⟨[], [("invoice_a.jpg", old)], []⟩
     storeLookup (storeDocuments st [newer]).store "invoice_a.jpg" = some newer ∧
     (storeDocuments st [newer]).store.length = 1) := by
  refine ⟨?_, ?_⟩
  · exact (storeDocuments_upsert _ _ (by decide) (by decide)).1
  · exact (storeDocuments_upsert _ _ (by decide) (by decide)).2.2.1

/-! ## The per-file loop: specification lemmas for C3 and C10 -/

theorem processSingleDocument_none_spec
    (ocr : String → String) (ner : Option (String → Except String (List NerEnt)))
    (rex : RegexOracle) (now : String) (st : PState) (f : String) (st' : PState)
    (h : processSingleDocument ocr ner rex now st f = (none, st')) : st' = st := by
  unfold processSingleDocument at h
  dsimp only at h
  split at h
  · exact (Prod.mk.injEq _ _ _ _ ▸ h).2.symm
  · split at h
    · exact (Prod.mk.injEq _ _ _ _ ▸ h).2.symm
    · exact absurd (Prod.mk.injEq _ _ _ _ ▸ h).1 (by simp)

theorem processSingleDocument_some_spec
    (ocr : String → String) (ner : Option (String → Except String (List NerEnt)))
    (rex : RegexOracle) (now : String) (st : PState) (f : String)
    (d : DocData) (st' : PState)
    (h : processSingleDocument ocr ner rex now st f = (some d, st')) :
    st' = storeDocuments st [d] ∧ d.file_path = f ∧
    d.id = d.category ++ "_" ++ d.filename ∧ d.filename = basename f ∧
    10 ≤ (pyStrip (ocr f).data).length := by
  unfold processSingleDocument at h
  dsimp only at h
  split at h
  · exact absurd (Prod.mk.injEq _ _ _ _ ▸ h).1 (by simp)
  · rename_i hcond
    split at h
    · exact absurd (Prod.mk.injEq _ _ _ _ ▸ h).1 (by simp)
    · rename_i entities hok
      obtain ⟨h1, h2⟩ := Prod.mk.injEq _ _ _ _ ▸ h
      obtain rfl := (Option.some.inj h1).symm
      have hlen : 10 ≤ (pyStrip (ocr f).data).length := by
        simp only [Bool.or_eq_true, decide_eq_true_eq, not_or] at hcond
        omega
      exact ⟨h2.symm, rfl, rfl, rfl, hlen⟩

/-- What one pass of the batch loop does: it appends some list `newDocs` of
successfully processed records to the accumulator, performs exactly one
`collection.add` call per new record (the per-document store inside
`process_single_document`), touches no sink, at most one record per input
file, and every new record comes from a file whose stripped OCR text has at
least the 10-character minimum. -/
theorem processLoop_spec
    (ocr : String → String) (ner : Option (String → Except String (List NerEnt)))
    (rex : RegexOracle) (now : String) :
    ∀ (fs : List String) (docs : List DocData) (st : PState),
    ∃ newDocs : List DocData,
      processLoop ocr ner rex now fs (docs, st) =
        (docs ++ newDocs,
         { addCalls := st.addCalls ++ newDocs.map fun d => [d.id],
           store := newDocs.foldl upsertOne st.store,
           sinkCalls := st.sinkCalls }) ∧
      newDocs.length ≤ fs.length ∧
      ∀ d ∈ newDocs, d.file_path ∈ fs ∧
        d.id = d.category ++ "_" ++ d.filename ∧
        10 ≤ (pyStrip (ocr d.file_path).data).length := by
  intro fs
  induction fs with
  | nil =>
    intro docs st
    exact ⟨[], by simp [processLoop], by simp, by simp⟩
  | cons f fs ih =>
    intro docs st
    rcases hp : processSingleDocument ocr ner rex now st f with ⟨r, st'⟩
    cases r with
    | none =>
      have hn := processSingleDocument_none_spec ocr ner rex now st f st' hp
      obtain ⟨new, heq, hlen, hmem⟩ := ih docs st
      refine ⟨new, ?_, Nat.le_succ_of_le hlen, ?_⟩
      · simp only [processLoop, hp]
        rw [hn]
        exact heq
      · intro d hd
        obtain ⟨hf, hid, hocr⟩ := hmem d hd
        exact ⟨List.mem_cons_of_mem f hf, hid, hocr⟩
    | some d0 =>
      obtain ⟨hst', hfp, hid0, _, hocr0⟩ :=
        processSingleDocument_some_spec ocr ner rex now st f d0 st' hp
      have hst'2 : st' = { addCalls := st.addCalls ++ [[d0.id]],
                           store := upsertOne st.store d0,
                           sinkCalls := st.sinkCalls } := by
        rw [hst']
        simp [storeDocuments]
      obtain ⟨new, heq, hlen, hmem⟩ := ih (docs ++ [d0]) st'
      refine ⟨d0 :: new, ?_, Nat.succ_le_succ hlen, ?_⟩
      · simp only [processLoop, hp]
        rw [heq, hst'2]
        simp
      · intro d hd
        rcases List.mem_cons.mp hd with rfl | hd
        · exact ⟨hfp ▸ List.mem_cons_self f fs, hid0, hfp ▸ hocr0⟩
        · obtain ⟨hf, hid, hocr⟩ := hmem d hd
          exact ⟨List.mem_cons_of_mem f hf, hid, hocr⟩

/-! ## Claim C3: batch processing drops bad-OCR files and degrades to [] -/

/-- Claim C3: for every input file list, `process_documents` returns at most
one record per input file; every returned record comes from a file whose
stripped OCR text reached the 10-character minimum (so files with empty,
whitespace-only or too-short OCR text are excluded); and when no file succeeds
it returns `[]` with the pipeline state untouched — no `collection.add` call
and no JSON/CSV sink call.  The function is total (the embedding returns a
plain pair, mirroring the Python code, where every per-document exception is
caught inside `process_single_document`), so "without raising" holds by
construction. -/
theorem processDocuments_batch_spec
    (ocr : String → String) (ner : Option (String → Except String (List NerEnt)))
    (rex : RegexOracle) (now : String)
    (files : List String) (limit : Nat) (st : PState) :
    (processDocuments ocr ner rex now files limit st).1.length ≤ files.length ∧
    (∀ d ∈ (processDocuments ocr ner rex now files limit st).1,
       10 ≤ (pyStrip (ocr d.file_path).data).length) ∧
    ((processDocuments ocr ner rex now files limit st).1 = [] →
       (processDocuments ocr ner rex now files limit st).2 = st) := by
  obtain ⟨new, heq, hlen, hmem⟩ :=
    processLoop_spec ocr ner rex now (files.take limit) [] st
  rw [List.nil_append] at heq
  have hres : processDocuments ocr ner rex now files limit st
      = if new.isEmpty then
          ([], { addCalls := st.addCalls ++ new.map fun d => [d.id],
                 store := new.foldl upsertOne st.store,
                 sinkCalls := st.sinkCalls })
        else
          (new, saveResults
            (storeDocuments
              { addCalls := st.addCalls ++ new.map fun d => [d.id],
                store := new.foldl upsertOne st.store,
                sinkCalls := st.sinkCalls } new) new) := by
    unfold processDocuments
    dsimp only
    rw [heq]
  by_cases hempty : new.isEmpty
  · have hnil : new = [] := List.isEmpty_iff.mp hempty
    rw [hres, if_pos hempty]
    subst hnil
    refine ⟨by simp, by simp, fun _ => ?_⟩
    simp
  · rw [hres, if_neg hempty]
    refine ⟨?_, ?_, ?_⟩
    · calc new.length ≤ (files.take limit).length := hlen
        _ ≤ files.length := by
            rw [List.length_take]
            exact Nat.min_le_right _ _
    · intro d hd
      exact (hmem d hd).2.2
    · intro habs
      dsimp only at habs
      simp [habs] at hempty

/-- Witness for C3 at a concrete batch whose two files both produce empty OCR
text: the result is empty and the pipeline state (store and sinks) is
untouched. -/
theorem processDocuments_batch_spec_witness :
    (processDocuments (fun _ => "") none rexTriv "t0"
      ["a.jpg", "b.jpg"] 50 initState).2 = initState :=
  (processDocuments_batch_spec (fun _ => "") none rexTriv "t0"
    ["a.jpg", "b.jpg"] 50 initState).2.2 (by decide)

/-! ## Claim C10: every successful document is submitted to `collection.add` twice -/

/-- Claim C10: in a batch run of `process_documents`, the `collection.add`
calls are exactly one single-record call `[d.id]` per successful record `d`
(made by `process_single_document` right after constructing the record,
line 86 of `src/processor/pipeline.py`) followed, when the batch is
non-empty, by one batch call carrying all the ids again (the batch-level
`_store_documents` pass at line 217) — so each successful document's id is
submitted to `add` twice. -/
theorem processDocuments_adds_each_doc_twice
    (ocr : String → String) (ner : Option (String → Except String (List NerEnt)))
    (rex : RegexOracle) (now : String)
    (files : List String) (limit : Nat) (st : PState) :
    (processDocuments ocr ner rex now files limit st).2.addCalls
      = st.addCalls
        ++ ((processDocuments ocr ner rex now files limit st).1.map fun d => [d.id])
        ++ (if (processDocuments ocr ner rex now files limit st).1.isEmpty then []
            else [(processDocuments ocr ner rex now files limit st).1.map fun d => d.id]) := by
  obtain ⟨new, heq, hlen, hmem⟩ :=
    processLoop_spec ocr ner rex now (files.take limit) [] st
  rw [List.nil_append] at heq
  have hres : processDocuments ocr ner rex now files limit st
      = if new.isEmpty then
          ([], { addCalls := st.addCalls ++ new.map fun d => [d.id],
                 store := new.foldl upsertOne st.store,
                 sinkCalls := st.sinkCalls })
        else
          (new, saveResults
            (storeDocuments
              { addCalls := st.addCalls ++ new.map fun d => [d.id],
                store := new.foldl upsertOne st.store,
                sinkCalls := st.sinkCalls } new) new) := by
    unfold processDocuments
    dsimp only
    rw [heq]
  by_cases hempty : new.isEmpty
  · have hnil : new = [] := List.isEmpty_iff.mp hempty
    rw [hres, if_pos hempty]
    subst hnil
    simp
  · rw [hres, if_neg hempty]
    have hne : (new.isEmpty = true) = False := by simp [hempty]
    simp [saveResults, storeDocuments, hne]

/-! ## Deduplication lemmas (`list(dict.fromkeys(...))`) -/

theorem mem_dedupAux (x : String) :
    ∀ (l seen : List String), x ∈ dedupAux seen l ↔ x ∈ l ∧ x ∉ seen := by
  intro l
  induction l with
  | nil => intro seen; simp [dedupAux]
  | cons y ys ih =>
    intro seen
    by_cases hy : y ∈ seen
    · rw [dedupAux, if_pos hy, ih]
      constructor
      · rintro ⟨hx, hs⟩
        exact ⟨List.mem_cons_of_mem y hx, hs⟩
      · rintro ⟨hx, hs⟩
        rcases List.mem_cons.mp hx with rfl | hx
        · exact absurd hy hs
        · exact ⟨hx, hs⟩
    · rw [dedupAux, if_neg hy]
      constructor
      · intro hx
        rcases List.mem_cons.mp hx with rfl | hx
        · exact ⟨List.mem_cons_self x ys, hy⟩
        · obtain ⟨h1, h2⟩ := (ih (y :: seen)).mp hx
          exact ⟨List.mem_cons_of_mem y h1,
                 fun hs => h2 (List.mem_cons_of_mem y hs)⟩
      · rintro ⟨hx, hs⟩
        rcases List.mem_cons.mp hx with rfl | hx
        · exact List.mem_cons_self x _
        · by_cases hxy : x = y
          · subst hxy; exact List.mem_cons_self x _
          · exact List.mem_cons_of_mem y ((ih (y :: seen)).mpr
              ⟨hx, fun hmem => by
                rcases List.mem_cons.mp hmem with h | h
                · exact hxy h
                · exact hs h⟩)

theorem dedupAux_sublist : ∀ (l seen : List String), (dedupAux seen l).Sublist l := by
  intro l
  induction l with
  | nil => intro seen; simp [dedupAux]
  | cons y ys ih =>
    intro seen
    by_cases hy : y ∈ seen
    · rw [dedupAux, if_pos hy]
      exact (ih seen).cons y
    · rw [dedupAux, if_neg hy]
      exact (ih (y :: seen)).cons₂ y

theorem nodup_dedupAux : ∀ (l seen : List String), (dedupAux seen l).Nodup := by
  intro l
  induction l with
  | nil => intro seen; simp [dedupAux]
  | cons y ys ih =>
    intro seen
    by_cases hy : y ∈ seen
    · rw [dedupAux, if_pos hy]; exact ih seen
    · rw [dedupAux, if_neg hy]
      refine List.nodup_cons.mpr ⟨?_, ih (y :: seen)⟩
      intro hmem
      exact ((mem_dedupAux y ys (y :: seen)).mp hmem).2 (List.mem_cons_self y seen)

theorem mem_dedupFirstSeen (x : String) (l : List String) :
    x ∈ dedupFirstSeen l ↔ x ∈ l := by
  rw [dedupFirstSeen, mem_dedupAux]
  simp

theorem dedupFirstSeen_ne_nil {l : List String} (h : l ≠ []) :
    dedupFirstSeen l ≠ [] := by
  cases l with
  | nil => exact absurd rfl h
  | cons x xs =>
    rw [dedupFirstSeen, dedupAux, if_neg (List.not_mem_nil x)]
    exact List.cons_ne_nil _ _

/-! ## Characterisation of `extract_entities` (regex variant) -/

theorem extractEntities_eq_filterMap
    (findallCI : String → String → List String)
    (text : String) (patterns : List (String × List String)) :
    extractEntities findallCI text patterns
      = patterns.filterMap fun kpl =>
          let ms := kpl.2.flatMap fun pat => findallCI pat text
          if ms.isEmpty then none else some (kpl.1, dedupFirstSeen ms) := by
  suffices h : ∀ (ps : List (String × List String)) (acc : List (String × List String)),
      ps.foldl
        (fun acc kpl =>
          let ms := kpl.2.flatMap fun pat => findallCI pat text
          if ms.isEmpty then acc else acc ++ [(kpl.1, dedupFirstSeen ms)])
        acc
      = acc ++ ps.filterMap fun kpl =>
          let ms := kpl.2.flatMap fun pat => findallCI pat text
          if ms.isEmpty then none else some (kpl.1, dedupFirstSeen ms) by
    rw [extractEntities, h patterns []]
    simp
  intro ps
  induction ps with
  | nil => intro acc; simp
  | cons kpl ps ih =>
    intro acc
    rw [List.foldl_cons, List.filterMap_cons]
    dsimp only
    by_cases hms : (kpl.2.flatMap fun pat => findallCI pat text).isEmpty
    · rw [if_pos hms, if_pos hms, ih]
    · rw [if_neg hms, if_neg hms, ih]
      simp

/-- Uniqueness of the entry for a key in a dict with `Nodup` keys. -/
theorem nodup_keys_unique {α : Type} :
    ∀ (ps : List (String × α)), (ps.map fun kv => kv.1).Nodup →
    ∀ (k : String) (a b : α), (k, a) ∈ ps → (k, b) ∈ ps → a = b := by
  intro ps
  induction ps with
  | nil => intro _ k a b ha; simp at ha
  | cons kv rest ih =>
    intro hnd k a b ha hb
    rw [List.map_cons, List.nodup_cons] at hnd
    rcases List.mem_cons.mp ha with ha1 | ha1 <;>
      rcases List.mem_cons.mp hb with hb1 | hb1
    · rw [← hb1] at ha1
      exact (Prod.mk.injEq _ _ _ _ ▸ ha1).2
    · exfalso
      apply hnd.1
      rw [← ha1]
      exact List.mem_map.mpr ⟨(k, b), hb1, rfl⟩
    · exfalso
      apply hnd.1
      rw [← hb1]
      exact List.mem_map.mpr ⟨(k, a), ha1, rfl⟩
    · exact ih hnd.2 k a b ha1 hb1

/-! ## Key-set lemmas for the model-assisted extractor's dict -/

theorem keys_dictExtend (d : EntityDict) (k : String) (vs : List String) :
    ((dictExtend d k vs).map fun kv => kv.1) = d.map fun kv => kv.1 := by
  rw [dictExtend, List.map_map]
  apply List.map_congr_left
  intro kv _
  by_cases h : kv.1 = k <;> simp [h]

theorem keys_routeEntity (d : EntityDict) (e : NerEnt) :
    ((routeEntity d e).map fun kv => kv.1) = d.map fun kv => kv.1 := by
  unfold routeEntity
  dsimp only
  split_ifs <;> simp [keys_dictExtend]

theorem keys_foldl_routeEntity :
    ∀ (results : List NerEnt) (d : EntityDict),
    (((results.foldl routeEntity d).map fun kv => kv.1)) = d.map fun kv => kv.1 := by
  intro results
  induction results with
  | nil => intro d; rfl
  | cons e es ih =>
    intro d
    rw [List.foldl_cons, ih, keys_routeEntity]

theorem keys_cleanupEntities (d : EntityDict) :
    ((cleanupEntities d).map fun kv => kv.1) = d.map fun kv => kv.1 := by
  rw [cleanupEntities, List.map_map]
  rfl

/-- Every successful (`Except.ok`) result of the model-assisted extractor
carries exactly the 8 fixed kinds, in insertion order. -/
theorem llm_ok_keys
    (ner : Option (String → Except String (List NerEnt))) (rex : RegexOracle)
    (text hint : String) (d : EntityDict)
    (h : extractEntitiesWithLlm ner rex text hint = .ok d) :
    (d.map fun kv => kv.1)
      = ["persons", "organizations", "locations", "dates",
         "amounts", "emails", "phones", "addresses"] := by
  cases ner with
  | none =>
    have h' : (Except.ok initialEntities : Except String EntityDict) = .ok d := by
      simpa [extractEntitiesWithLlm] using h
    obtain rfl := Except.ok.inj h'
    rfl
  | some nf =>
    unfold extractEntitiesWithLlm at h
    dsimp only at h
    split at h
    · obtain rfl := Except.ok.inj h
      rfl
    · split at h
      · rw [if_neg (by decide)] at h
        exact absurd h (by simp)
      · obtain rfl := Except.ok.inj h
        rw [keys_cleanupEntities, keys_dictExtend, keys_dictExtend,
            keys_dictExtend, keys_foldl_routeEntity]
        rfl

/-! ## Claim C6: empty kinds omitted by the regex variant, 8 kinds always present in the model variant -/

/-- Claim C6: (1) every kind present in the regex-only result maps to a
non-empty list; (2) for a pattern table with distinct kind names, a kind is
matched by zero regex hits exactly when its key is absent from the result
mapping; (3) every result the model-assisted extractor returns without
raising contains exactly the 8 fixed kinds (each possibly empty). -/
theorem extractEntities_omission_asymmetry
    (findallCI : String → String → List String) (text : String)
    (patterns : List (String × List String))
    (hnd : (patterns.map fun kv => kv.1).Nodup) :
    (∀ kv ∈ extractEntities findallCI text patterns, kv.2 ≠ []) ∧
    (∀ k pl, (k, pl) ∈ patterns →
      ((pl.flatMap fun pat => findallCI pat text) = [] ↔
        k ∉ (extractEntities findallCI text patterns).map fun kv => kv.1)) ∧
    (∀ (ner : Option (String → Except String (List NerEnt))) (rex : RegexOracle)
       (t hint : String) (d : EntityDict),
       extractEntitiesWithLlm ner rex t hint = .ok d →
       (d.map fun kv => kv.1)
         = ["persons", "organizations", "locations", "dates",
            "amounts", "emails", "phones", "addresses"]) := by
  refine ⟨?_, ?_, fun ner rex t hint d h => llm_ok_keys ner rex t hint d h⟩
  · intro kv hkv
    rw [extractEntities_eq_filterMap] at hkv
    obtain ⟨kpl, hmem, hg⟩ := List.mem_filterMap.mp hkv
    dsimp only at hg
    by_cases hms : (kpl.2.flatMap fun pat => findallCI pat text).isEmpty
    · rw [if_pos hms] at hg
      exact absurd hg (by simp)
    · rw [if_neg hms] at hg
      obtain rfl := (Option.some.inj hg).symm
      exact dedupFirstSeen_ne_nil (by simpa using hms)
  · intro k pl hkpl
    constructor
    · intro hflat hkeys
      rw [extractEntities_eq_filterMap] at hkeys
      obtain ⟨kv, hkv, hk1⟩ := List.mem_map.mp hkeys
      obtain ⟨kpl, hmem, hg⟩ := List.mem_filterMap.mp hkv
      dsimp only at hg
      by_cases hms : (kpl.2.flatMap fun pat => findallCI pat text).isEmpty
      · rw [if_pos hms] at hg
        exact absurd hg (by simp)
      · rw [if_neg hms] at hg
        obtain rfl := (Option.some.inj hg).symm
        have hkey : kpl.1 = k := hk1
        have hpl : pl = kpl.2 := by
          apply nodup_keys_unique patterns hnd k
          · exact hkpl
          · rw [← hkey]; exact hmem
        rw [← hpl, hflat] at hms
        simp at hms
    · intro hk
      by_contra hflat
      apply hk
      rw [extractEntities_eq_filterMap]
      refine List.mem_map.mpr ⟨(k, dedupFirstSeen (pl.flatMap fun pat => findallCI pat text)), ?_, rfl⟩
      refine List.mem_filterMap.mpr ⟨(k, pl), hkpl, ?_⟩
      dsimp only
      rw [if_neg (by simpa using hflat)]

/-- Witness for C6: a concrete two-kind pattern table where only `email`
matches — `phone` is absent from the regex result — and the trivial model run
whose `.ok` dict carries the 8 fixed kinds. -/
theorem extractEntities_omission_asymmetry_witness :
    ("phone" ∉ ((extractEntities
        (fun pat _ => if pat = "e" then ["a@b.com"] else []) "text0"
        [("email", ["e"]), ("phone", ["p"])]).map fun kv => kv.1)) ∧
    ((initialEntities.map fun kv => kv.1)
      = ["persons", "organizations", "locations", "dates",
         "amounts", "emails", "phones", "addresses"]) := by
  constructor
  · exact ((extractEntities_omission_asymmetry
      (fun pat _ => if pat = "e" then ["a@b.com"] else []) "text0"
      [("email", ["e"]), ("phone", ["p"])] (by decide)).2.1
        "phone" ["p"] (by decide)).mp (by decide)
  · exact (extractEntities_omission_asymmetry
      (fun pat _ => if pat = "e" then ["a@b.com"] else []) "text0"
      [("email", ["e"]), ("phone", ["p"])] (by decide)).2.2
        none rexTriv "x" "y" initialEntities rfl

/-! ## Claim C8: regex extraction is deterministic with order-preserving dedup -/

/-- Claim C8: regex entity extraction is deterministic — it is embedded as a
pure function of the text and the pattern table (plus the black-box regex
engine), so two calls with the same inputs are literally the same value
(first conjunct) — and each value list in the result is the accumulated match
list of its kind deduplicated while preserving first-seen order: it equals
`dedupFirstSeen` of the accumulated matches, has no duplicates, is a sublist
of the accumulated matches (hence preserves their relative order), and keeps
exactly their members. -/
theorem extractEntities_deterministic_dedup
    (findallCI : String → String → List String) (text : String)
    (patterns : List (String × List String)) :
    extractEntities findallCI text patterns = extractEntities findallCI text patterns ∧
    ∀ kv ∈ extractEntities findallCI text patterns,
      ∃ pl, (kv.1, pl) ∈ patterns ∧
        kv.2 = dedupFirstSeen (pl.flatMap fun pat => findallCI pat text) ∧
        kv.2.Nodup ∧
        kv.2.Sublist (pl.flatMap fun pat => findallCI pat text) ∧
        (∀ x, x ∈ kv.2 ↔ x ∈ pl.flatMap fun pat => findallCI pat text) := by
  refine ⟨rfl, ?_⟩
  intro kv hkv
  rw [extractEntities_eq_filterMap] at hkv
  obtain ⟨kpl, hmem, hg⟩ := List.mem_filterMap.mp hkv
  dsimp only at hg
  by_cases hms : (kpl.2.flatMap fun pat => findallCI pat text).isEmpty
  · rw [if_pos hms] at hg
    exact absurd hg (by simp)
  · rw [if_neg hms] at hg
    obtain rfl := (Option.some.inj hg).symm
    exact ⟨kpl.2, hmem, rfl, nodup_dedupAux _ [],
           dedupAux_sublist _ [], fun x => mem_dedupFirstSeen x _⟩

/-- Witness for C8 at a concrete input: the pattern `e` matches twice; the
result's `email` list is the deduplicated single match. -/
theorem extractEntities_deterministic_dedup_witness :
    ∃ pl, ("email", pl) ∈ [("email", ["e"]), ("phone", ["p"])] ∧
      (["a@b.com"] : List String)
        = dedupFirstSeen (pl.flatMap fun pat =>
            (fun pat _ => if pat = "e" then ["a@b.com", "a@b.com"] else ([] : List String)) pat "text0") ∧
      (["a@b.com"] : List String).Nodup ∧
      List.Sublist ["a@b.com"] (pl.flatMap fun pat =>
            (fun pat _ => if pat = "e" then ["a@b.com", "a@b.com"] else ([] : List String)) pat "text0") ∧
      (∀ x, x ∈ (["a@b.com"] : List String) ↔ x ∈ pl.flatMap fun pat =>
            (fun pat _ => if pat = "e" then ["a@b.com", "a@b.com"] else ([] : List String)) pat "text0") :=
  (extractEntities_deterministic_dedup
    (fun pat _ => if pat = "e" then ["a@b.com", "a@b.com"] else ([] : List String))
    "text0" [("email", ["e"]), ("phone", ["p"])]).2
    ("email", ["a@b.com"]) (by decide)

/-! ## `dictGet` lemmas for the model-assisted extractor -/

theorem dictGet_cons (kv : String × List String) (rest : EntityDict) (k : String) :
    dictGet (kv :: rest) k = if kv.1 = k then kv.2 else dictGet rest k := by
  by_cases hk : kv.1 = k
  · simp [dictGet, List.find?_cons_of_pos, hk]
  · simp [dictGet, List.find?_cons_of_neg, hk]

theorem dictGet_cleanupEntities (d : EntityDict) (k : String) :
    dictGet (cleanupEntities d) k
      = (dedupFirstSeen (dictGet d k)).filter fun item => (pyStrip item.data).length > 1 := by
  induction d with
  | nil => simp [dictGet, cleanupEntities, dedupFirstSeen, dedupAux]
  | cons kv rest ih =>
    rw [cleanupEntities, List.map_cons]
    rw [dictGet_cons, dictGet_cons]
    by_cases hk : kv.1 = k
    · rw [if_pos hk, if_pos hk]
    · rw [if_neg hk, if_neg hk, ← cleanupEntities, ih]

theorem dictGet_dictExtend_self (d : EntityDict) (k : String) (vs : List String)
    (hmem : k ∈ d.map fun kv => kv.1) :
    dictGet (dictExtend d k vs) k = dictGet d k ++ vs := by
  induction d with
  | nil => simp at hmem
  | cons kv rest ih =>
    rw [dictExtend, List.map_cons, dictGet_cons, dictGet_cons]
    by_cases hk : kv.1 = k
    · simp [hk]
    · simp only [if_neg hk]
      rw [← dictExtend]
      apply ih
      rcases List.mem_map.mp hmem with ⟨kv', hkv', hk1⟩
      rcases List.mem_cons.mp hkv' with rfl | hkv'
      · exact absurd hk1 hk
      · exact List.mem_map.mpr ⟨kv', hkv', hk1⟩

theorem dictGet_dictExtend_other (d : EntityDict) (k k' : String) (vs : List String)
    (hne : k' ≠ k) :
    dictGet (dictExtend d k vs) k' = dictGet d k' := by
  induction d with
  | nil => rfl
  | cons kv rest ih =>
    rw [dictExtend, List.map_cons, dictGet_cons, dictGet_cons]
    by_cases hk : kv.1 = k
    · have hk' : ¬(kv.1 = k') := fun h => hne (h.symm.trans hk)
      simp only [if_pos hk, if_neg hk']
      rw [← dictExtend, ih]
    · simp only [if_neg hk]
      by_cases hk2 : kv.1 = k'
      · simp only [if_pos hk2]
      · simp only [if_neg hk2]
        rw [← dictExtend, ih]

/-- Low-confidence spans contribute nothing. -/
theorem routeEntity_low (d : EntityDict) (e : NerEnt)
    (h : ¬(e.score > nerScoreThreshold)) : routeEntity d e = d := by
  unfold routeEntity
  dsimp only
  rw [if_neg h]

theorem foldl_routeEntity_filter :
    ∀ (results : List NerEnt) (d : EntityDict),
    results.foldl routeEntity d
      = (results.filter fun e => decide (e.score > nerScoreThreshold)).foldl routeEntity d := by
  intro results
  induction results with
  | nil => intro d; rfl
  | cons e es ih =>
    intro d
    rw [List.foldl_cons, List.filter_cons]
    by_cases hs : e.score > nerScoreThreshold
    · rw [if_pos (by simpa using hs), List.foldl_cons, ih]
    · rw [if_neg (by simpa using hs), routeEntity_low d e hs, ih]

/-- Shape of a successful model-path run: the result dict is the cleanup of
the routed NER results extended with the three full-text regex passes. -/
theorem llm_ok_main_branch
    (nf : String → Except String (List NerEnt)) (rex : RegexOracle)
    (text hint : String) (d : EntityDict)
    (hblank : ¬(pyStrip text.data).isEmpty = true)
    (results : List NerEnt)
    (hok : nf (String.mk (text.data.take 512)) = .ok results)
    (h : extractEntitiesWithLlm (some nf) rex text hint = .ok d) :
    d = cleanupEntities
          (dictExtend
            (dictExtend
              (dictExtend (results.foldl routeEntity initialEntities)
                "emails" (rex.findall emailPattern text))
              "phones" ((rex.findallTriples phonePattern text).map joinDash))
            "amounts" (rex.findall moneyPattern text)) := by
  unfold extractEntitiesWithLlm at h
  dsimp only at h
  rw [if_neg hblank, hok] at h
  exact (Except.ok.inj h).symm

/-! ## Claim C7: truncation, threshold, full-text regex merge, dedup and length filter -/

/-- Claim C7, for the model-assisted extractor on texts where the model path
runs: (1) the NER model only ever sees the first 512 characters — two models
agreeing on the truncation give identical extractions; (2) spans with
confidence not above 0.8 (= `nerScoreThreshold`) are never retained —
filtering them out of the model output changes nothing; (3) in every
successful result on a non-blank text, each match of the email / phone /
monetary-amount regex pass over the *full* text that survives the final
length filter appears in the corresponding kind list; and (4) every kind
list of a successful result is duplicate-free and contains only entries whose
stripped length exceeds 1. -/
theorem llmExtract_truncation_threshold_merge
    (ner : String → Except String (List NerEnt)) (rex : RegexOracle)
    (text hint : String) :
    (∀ ner2 : String → Except String (List NerEnt),
       ner (String.mk (text.data.take 512)) = ner2 (String.mk (text.data.take 512)) →
       extractEntitiesWithLlm (some ner) rex text hint
         = extractEntitiesWithLlm (some ner2) rex text hint) ∧
    (∀ results : List NerEnt,
       ner (String.mk (text.data.take 512)) = .ok results →
       ∀ ner2 : String → Except String (List NerEnt),
       ner2 (String.mk (text.data.take 512))
         = .ok (results.filter fun e => decide (e.score > nerScoreThreshold)) →
       extractEntitiesWithLlm (some ner) rex text hint
         = extractEntitiesWithLlm (some ner2) rex text hint) ∧
    (∀ d : EntityDict,
       extractEntitiesWithLlm (some ner) rex text hint = .ok d →
       (pyStrip text.data ≠ [] →
         (∀ m ∈ rex.findall emailPattern text,
            (pyStrip m.data).length > 1 → m ∈ dictGet d "emails") ∧
         (∀ p ∈ rex.findallTriples phonePattern text,
            (pyStrip (joinDash p).data).length > 1 → joinDash p ∈ dictGet d "phones") ∧
         (∀ m ∈ rex.findall moneyPattern text,
            (pyStrip m.data).length > 1 → m ∈ dictGet d "amounts")) ∧
       (∀ kv ∈ d, kv.2.Nodup ∧ ∀ x ∈ kv.2, (pyStrip x.data).length > 1)) := by
  refine ⟨?_, ?_, ?_⟩
  · intro ner2 hagree
    unfold extractEntitiesWithLlm
    dsimp only
    rw [← hagree]
  · intro results hok ner2 hok2
    unfold extractEntitiesWithLlm
    dsimp only
    by_cases hblank : (pyStrip text.data).isEmpty
    · rw [if_pos hblank, if_pos hblank]
    · rw [if_neg hblank, if_neg hblank, hok, hok2]
      dsimp only
      rw [← foldl_routeEntity_filter]
  · intro d h
    by_cases hblank : (pyStrip text.data).isEmpty
    · have hd : d = initialEntities := by
        unfold extractEntitiesWithLlm at h
        dsimp only at h
        rw [if_pos hblank] at h
        exact (Except.ok.inj h).symm
      subst hd
      constructor
      · intro hne
        exact absurd (List.isEmpty_iff.mp hblank) hne
      · intro kv hkv
        have hv : kv.2 = [] := by
          simp only [initialEntities, List.mem_cons, List.not_mem_nil, or_false] at hkv
          rcases hkv with h1|h1|h1|h1|h1|h1|h1|h1 <;> rw [h1]
        rw [hv]
        exact ⟨List.nodup_nil, fun x hx => absurd hx (List.not_mem_nil x)⟩
    · rcases hner : ner (String.mk (text.data.take 512)) with e | results
      · exfalso
        unfold extractEntitiesWithLlm at h
        dsimp only at h
        rw [if_neg hblank, hner, if_neg (by decide)] at h
        exact Except.noConfusion h
      · have hd := llm_ok_main_branch ner rex text hint d hblank results hner h
        subst hd
        have hkeys1 : ((results.foldl routeEntity initialEntities).map fun kv => kv.1)
            = initialEntities.map fun kv => kv.1 := keys_foldl_routeEntity results initialEntities
        constructor
        · intro _
          refine ⟨?_, ?_, ?_⟩
          · intro m hm hlen
            rw [dictGet_cleanupEntities,
                dictGet_dictExtend_other _ _ _ _ (by decide),
                dictGet_dictExtend_other _ _ _ _ (by decide),
                dictGet_dictExtend_self _ _ _ (by rw [hkeys1]; decide)]
            exact List.mem_filter.mpr
              ⟨(mem_dedupFirstSeen m _).mpr (List.mem_append_right _ hm),
               by simpa using hlen⟩
          · intro p hp hlen
            rw [dictGet_cleanupEntities,
                dictGet_dictExtend_other _ _ _ _ (by decide),
                dictGet_dictExtend_self _ _ _
                  (by rw [keys_dictExtend, hkeys1]; decide)]
            exact List.mem_filter.mpr
              ⟨(mem_dedupFirstSeen _ _).mpr
                 (List.mem_append_right _ (List.mem_map.mpr ⟨p, hp, rfl⟩)),
               by simpa using hlen⟩
          · intro m hm hlen
            rw [dictGet_cleanupEntities,
                dictGet_dictExtend_self _ _ _
                  (by rw [keys_dictExtend, keys_dictExtend, hkeys1]; decide)]
            exact List.mem_filter.mpr
              ⟨(mem_dedupFirstSeen m _).mpr (List.mem_append_right _ hm),
               by simpa using hlen⟩
        · intro kv hkv
          obtain ⟨kv0, _, hkveq⟩ := List.mem_map.mp hkv
          have hv : kv.2 = (dedupFirstSeen kv0.2).filter
              fun item => (pyStrip item.data).length > 1 := by
            rw [← hkveq]
          rw [hv]
          refine ⟨(nodup_dedupAux kv0.2 []).filter _, fun x hx => ?_⟩
          simpa using (List.mem_filter.mp hx).2

/-- Witness for C7 at a concrete run: one high-confidence PER span, one
low-confidence ORG span, a duplicated email regex match over the full text —
the resulting dict contains the deduplicated email. -/
theorem llmExtract_truncation_threshold_merge_witness :
    "ab@cd.com" ∈ dictGet
      [("persons", ["John Smith"]), ("organizations", []), ("locations", []),
       ("dates", []), ("amounts", []), ("emails", ["ab@cd.com"]),
       ("phones", ["555-123-4567"]), ("addresses", [])] "emails" :=
  ((((llmExtract_truncation_threshold_merge
      (fun _ => .ok [⟨"PER", " John Smith ", ⟨9, 10, by decide, by decide⟩⟩,
                     ⟨"ORG", "Acme", ⟨1, 2, by decide, by decide⟩⟩])
      ⟨fun pat _ => if pat = emailPattern then ["ab@cd.com", "ab@cd.com"] else [],
       fun _ _ => [("555", "123", "4567")], fun _ _ => []⟩
      "John Smith ab@cd.com 555-123-4567" "letter").2.2
      [("persons", ["John Smith"]), ("organizations", []), ("locations", []),
       ("dates", []), ("amounts", []), ("emails", ["ab@cd.com"]),
       ("phones", ["555-123-4567"]), ("addresses", [])] (by decide)).1
      (by decide)).1 "ab@cd.com" (by decide)) (by decide)

/-! ## Claim C5: path-component classification and the keyword fallback -/

theorem firstCategoryPart_isSome_of_mem :
    ∀ (ps : List String) (part : String), part ∈ ps →
    part ∈ DOCUMENT_CATEGORIES → ∃ c, firstCategoryPart ps = some c := by
  intro ps
  induction ps with
  | nil => intro part h; simp at h
  | cons p rest ih =>
    intro part hmem hcat
    by_cases hp : DOCUMENT_CATEGORIES.contains p
    · exact ⟨p, by rw [firstCategoryPart, if_pos hp]⟩
    · rcases List.mem_cons.mp hmem with rfl | hmem
      · exact absurd (List.elem_iff.mpr hcat) hp
      · obtain ⟨c, hc⟩ := ih part hmem hcat
        exact ⟨c, by rw [firstCategoryPart, if_neg hp, hc]⟩

theorem firstCategoryPart_first :
    ∀ (pre : List String) (part : String) (post : List String),
    part ∈ DOCUMENT_CATEGORIES → (∀ q ∈ pre, q ∉ DOCUMENT_CATEGORIES) →
    firstCategoryPart (pre ++ part :: post) = some part := by
  intro pre
  induction pre with
  | nil =>
    intro part post hcat _
    rw [List.nil_append, firstCategoryPart, if_pos (List.elem_iff.mpr hcat)]
  | cons q pre ih =>
    intro part post hcat hpre
    rw [List.cons_append, firstCategoryPart,
        if_neg (fun hq => hpre q (List.mem_cons_self q pre) (List.elem_iff.mp hq))]
    exact ih part post hcat fun q' hq' => hpre q' (List.mem_cons_of_mem q hq')

theorem firstCategoryPart_eq_none :
    ∀ ps : List String, (∀ part ∈ ps, part ∉ DOCUMENT_CATEGORIES) →
    firstCategoryPart ps = none := by
  intro ps
  induction ps with
  | nil => intro _; rfl
  | cons p rest ih =>
    intro h
    rw [firstCategoryPart,
        if_neg (fun hp => h p (List.mem_cons_self p rest) (List.elem_iff.mp hp))]
    exact ih fun part hmem => h part (List.mem_cons_of_mem p hmem)

/-- Claim C5, amended: when some path component lies in the fixed category
list, the classification ignores the text entirely (first conjunct) and
returns the *first* such component in path order (second conjunct) — the
original claim's "returns that category" for an arbitrary matching component
fails when two different categories appear in one path, see the
counterexample.  With no matching component, the lower-cased text is tested
against the keyword lists in the fixed priority order invoice, form, resume,
letter, memo, first match winning, and `"unknown"` closes the cascade (third
conjunct).  The function is a total Lean function of `(path, text)`, so it is
deterministic and cannot fail. -/
theorem classifyDocument_first_match_and_fallback (path text : String) :
    ((∃ part ∈ pathParts path, part ∈ DOCUMENT_CATEGORIES) →
       ∀ text2 : String, classifyDocument path text = classifyDocument path text2) ∧
    (∀ (pre : List String) (part : String) (post : List String),
       pathParts path = pre ++ part :: post →
       part ∈ DOCUMENT_CATEGORIES →
       (∀ q ∈ pre, q ∉ DOCUMENT_CATEGORIES) →
       classifyDocument path text = part) ∧
    ((∀ part ∈ pathParts path, part ∉ DOCUMENT_CATEGORIES) →
       (keywordHit invoiceWords (pyLower text) = true →
          classifyDocument path text = "invoice") ∧
       (keywordHit invoiceWords (pyLower text) = false →
        keywordHit formWords (pyLower text) = true →
          classifyDocument path text = "form") ∧
       (keywordHit invoiceWords (pyLower text) = false →
        keywordHit formWords (pyLower text) = false →
        keywordHit resumeWords (pyLower text) = true →
          classifyDocument path text = "resume") ∧
       (keywordHit invoiceWords (pyLower text) = false →
        keywordHit formWords (pyLower text) = false →
        keywordHit resumeWords (pyLower text) = false →
        keywordHit letterWords (pyLower text) = true →
          classifyDocument path text = "letter") ∧
       (keywordHit invoiceWords (pyLower text) = false →
        keywordHit formWords (pyLower text) = false →
        keywordHit resumeWords (pyLower text) = false →
        keywordHit letterWords (pyLower text) = false →
        keywordHit memoWords (pyLower text) = true →
          classifyDocument path text = "memo") ∧
       (keywordHit invoiceWords (pyLower text) = false →
        keywordHit formWords (pyLower text) = false →
        keywordHit resumeWords (pyLower text) = false →
        keywordHit letterWords (pyLower text) = false →
        keywordHit memoWords (pyLower text) = false →
          classifyDocument path text = "unknown")) := by
  refine ⟨?_, ?_, ?_⟩
  · rintro ⟨part, hmem, hcat⟩ text2
    obtain ⟨c, hc⟩ := firstCategoryPart_isSome_of_mem (pathParts path) part hmem hcat
    unfold classifyDocument
    rw [hc]
  · intro pre part post hsplit hcat hpre
    unfold classifyDocument
    rw [hsplit, firstCategoryPart_first pre part post hcat hpre]
  · intro hnone
    have hc : firstCategoryPart (pathParts path) = none :=
      firstCategoryPart_eq_none (pathParts path) hnone
    refine ⟨?_, ?_, ?_, ?_, ?_, ?_⟩ <;>
      · intros
        unfold classifyDocument
        rw [hc]
        dsimp only
        simp_all

/-- Counterexample to C5 as literally stated: in
`invoice/letter/doc.jpg` the component `letter` exactly matches a category,
yet classification returns `invoice` (the earlier component), not `letter`. -/
theorem classifyDocument_any_component_counterexample :
    "letter" ∈ pathParts "invoice/letter/doc.jpg" ∧
    "letter" ∈ DOCUMENT_CATEGORIES ∧
    classifyDocument "invoice/letter/doc.jpg" "" = "invoice" ∧
    classifyDocument "invoice/letter/doc.jpg" "" ≠ "letter" := by decide

/-- Witness for C5 (amended) at a concrete path: `data/invoice/x.jpg`
classifies as `invoice` whatever the text says. -/
theorem classifyDocument_first_match_witness :
    classifyDocument "data/invoice/x.jpg" "dear sir" = "invoice" :=
  (classifyDocument_first_match_and_fallback "data/invoice/x.jpg" "dear sir").2.1
    ["data"] "invoice" ["x.jpg"] (by decide) (by decide) (by decide)

/-! ## Whitespace-normalisation invariants (for Claim C4) -/

/-- Every whitespace character in the list is a plain space. -/
def wsNormal (l : List Char) : Prop := ∀ c ∈ l, isSpace c = true → c = ' '

/-- No two adjacent whitespace characters. -/
def noAdj : List Char → Prop
  | c :: d :: rest => ¬(isSpace c = true ∧ isSpace d = true) ∧ noAdj (d :: rest)
  | _ => True

/-- The head (if any) is not whitespace. -/
def headOk : List Char → Prop
  | [] => True
  | c :: _ => isSpace c = false

/-- The last character (if any) is not whitespace. -/
def lastOk (l : List Char) : Prop := headOk l.reverse

theorem wsNormal_collapseWsAux : ∀ (l : List Char) (b : Bool), wsNormal (collapseWsAux b l) := by
  intro l
  induction l with
  | nil => intro b c hc; simp [collapseWsAux] at hc
  | cons c rest ih =>
    intro b c' hc' hsp'
    rw [collapseWsAux] at hc'
    by_cases hsp : isSpace c
    · rw [if_pos hsp] at hc'
      cases b with
      | true => exact ih true c' (by simpa using hc') hsp'
      | false =>
        rcases List.mem_cons.mp (by simpa using hc') with rfl | hc'
        · rfl
        · exact ih true c' hc' hsp'
    · rw [if_neg hsp] at hc'
      rcases List.mem_cons.mp (by simpa using hc') with rfl | hc'
      · exact absurd hsp' hsp
      · exact ih false c' hc' hsp'

theorem headOk_collapseWsAux_true : ∀ l : List Char, headOk (collapseWsAux true l) := by
  intro l
  induction l with
  | nil => trivial
  | cons c rest ih =>
    rw [collapseWsAux]
    by_cases hsp : isSpace c
    · rw [if_pos hsp]
      simpa using ih
    · rw [if_neg hsp]
      rw [headOk]
      simpa using hsp

theorem noAdj_tail : ∀ (c : Char) (l : List Char), noAdj (c :: l) → noAdj l := by
  intro c l h
  cases l with
  | nil => trivial
  | cons d rest => exact h.2

theorem noAdj_cons_of (c : Char) (l : List Char) (hl : noAdj l)
    (hhead : ∀ d, l.head? = some d → ¬(isSpace c = true ∧ isSpace d = true)) :
    noAdj (c :: l) := by
  cases l with
  | nil => trivial
  | cons d rest => exact ⟨hhead d rfl, hl⟩

theorem noAdj_collapseWsAux : ∀ (l : List Char) (b : Bool), noAdj (collapseWsAux b l) := by
  intro l
  induction l with
  | nil => intro b; trivial
  | cons c rest ih =>
    intro b
    rw [collapseWsAux]
    by_cases hsp : isSpace c
    · rw [if_pos hsp]
      cases b with
      | true => exact ih true
      | false =>
        rw [if_neg (by simp)]
        refine noAdj_cons_of ' ' _ (ih true) ?_
        intro d hd hpair
        have hhead := headOk_collapseWsAux_true rest
        cases hx : collapseWsAux true rest with
        | nil => rw [hx] at hd; exact Option.noConfusion hd
        | cons e tail =>
          rw [hx] at hd hhead
          obtain rfl := Option.some.inj hd
          rw [headOk] at hhead
          rw [hhead] at hpair
          exact Bool.noConfusion hpair.2
    · rw [if_neg hsp]
      refine noAdj_cons_of c _ (ih false) ?_
      intro d _ hpair
      exact hsp hpair.1

theorem mem_collapseWsAux : ∀ (l : List Char) (b : Bool) (c : Char),
    c ∈ collapseWsAux b l → c ∈ l ∨ c = ' ' := by
  intro l
  induction l with
  | nil => intro b c hc; simp [collapseWsAux] at hc
  | cons x rest ih =>
    intro b c hc
    rw [collapseWsAux] at hc
    by_cases hsp : isSpace x
    · rw [if_pos hsp] at hc
      cases b with
      | true =>
        rcases ih true c (by simpa using hc) with h | h
        · exact Or.inl (List.mem_cons_of_mem x h)
        · exact Or.inr h
      | false =>
        rcases List.mem_cons.mp (by simpa using hc) with rfl | hc
        · exact Or.inr rfl
        · rcases ih true c hc with h | h
          · exact Or.inl (List.mem_cons_of_mem x h)
          · exact Or.inr h
    · rw [if_neg hsp] at hc
      rcases List.mem_cons.mp (by simpa using hc) with rfl | hc
      · exact Or.inl (List.mem_cons_self c rest)
      · rcases ih false c hc with h | h
        · exact Or.inl (List.mem_cons_of_mem x h)
        · exact Or.inr h

theorem wsNormal_tail (c : Char) (l : List Char) (h : wsNormal (c :: l)) : wsNormal l :=
  fun d hd hsp => h d (List.mem_cons_of_mem c hd) hsp

theorem collapseWsAux_eq_self : ∀ m : List Char, wsNormal m → noAdj m →
    collapseWsAux false m = m ∧ (headOk m → collapseWsAux true m = m) := by
  intro m
  induction m with
  | nil => exact fun _ _ => ⟨rfl, fun _ => rfl⟩
  | cons c rest ih =>
    intro hws hna
    obtain ⟨ih1, ih2⟩ := ih (wsNormal_tail c rest hws) (noAdj_tail c rest hna)
    by_cases hsp : isSpace c
    · have hc : c = ' ' := hws c (List.mem_cons_self c rest) hsp
      have hhead : headOk rest := by
        cases rest with
        | nil => trivial
        | cons d rest' =>
          rw [headOk]
          by_cases hd : isSpace d
          · exact absurd ⟨hsp, hd⟩ hna.1
          · simpa using hd
      constructor
      · rw [collapseWsAux, if_pos hsp, if_neg (by simp), ih2 hhead, hc]
      · intro hOk
        rw [headOk] at hOk
        rw [hsp] at hOk
        exact Bool.noConfusion hOk
    · constructor
      · rw [collapseWsAux, if_neg hsp, ih1]
      · intro _
        rw [collapseWsAux, if_neg hsp, ih1]

theorem noAdj_append_left : ∀ (t m : List Char), noAdj (t ++ m) → noAdj m := by
  intro t
  induction t with
  | nil => intro m h; exact h
  | cons x t ih =>
    intro m h
    exact ih m (noAdj_tail x (t ++ m) h)

theorem noAdj_append_right : ∀ (m t : List Char), noAdj (m ++ t) → noAdj m := by
  intro m
  induction m with
  | nil => intro t _; trivial
  | cons x m ih =>
    intro t h
    cases m with
    | nil => trivial
    | cons y m' =>
      rw [List.cons_append, List.cons_append] at h
      exact ⟨h.1, ih t (List.cons_append y m' t ▸ h.2)⟩

/-! ## Strip lemmas (for Claim C4) -/

theorem headOk_dropWhile : ∀ l : List Char, headOk (l.dropWhile isSpace) := by
  intro l
  induction l with
  | nil => trivial
  | cons c rest ih =>
    rw [List.dropWhile_cons]
    by_cases hsp : isSpace c
    · rw [if_pos hsp]; exact ih
    · rw [if_neg hsp]
      rw [headOk]
      simpa using hsp

theorem dropWhile_eq_self_of_headOk (l : List Char) (h : headOk l) :
    l.dropWhile isSpace = l := by
  cases l with
  | nil => rfl
  | cons c rest =>
    rw [headOk] at h
    rw [List.dropWhile_cons, if_neg (by simp [h])]

theorem exists_suffix_dropLeading (l : List Char) :
    ∃ t, l = t ++ dropLeadingWs l :=
  ⟨l.takeWhile isSpace, (List.takeWhile_append_dropWhile isSpace l).symm⟩

theorem exists_prefix_dropTrailing (m : List Char) :
    ∃ u, m = dropTrailingWs m ++ u := by
  refine ⟨(m.reverse.takeWhile isSpace).reverse, ?_⟩
  rw [dropTrailingWs, ← List.reverse_append, List.takeWhile_append_dropWhile,
      List.reverse_reverse]

theorem mem_pyStrip (c : Char) (l : List Char) (h : c ∈ pyStrip l) : c ∈ l := by
  rw [pyStrip, dropTrailingWs] at h
  have h1 : c ∈ (dropLeadingWs l).reverse.dropWhile isSpace := List.mem_reverse.mp h
  have h2 : c ∈ (dropLeadingWs l).reverse :=
    (List.dropWhile_sublist _).mem h1
  have h3 : c ∈ dropLeadingWs l := List.mem_reverse.mp h2
  exact (List.dropWhile_sublist _).mem h3

theorem noAdj_pyStrip (l : List Char) (h : noAdj l) : noAdj (pyStrip l) := by
  obtain ⟨t, ht⟩ := exists_suffix_dropLeading l
  have h1 : noAdj (dropLeadingWs l) := noAdj_append_left t _ (ht ▸ h)
  obtain ⟨u, hu⟩ := exists_prefix_dropTrailing (dropLeadingWs l)
  exact noAdj_append_right _ u (hu ▸ h1)

theorem headOk_of_prefix (p u m : List Char) (h : m = p ++ u) (hm : headOk m) :
    headOk p := by
  cases p with
  | nil => trivial
  | cons c p' =>
    rw [h, List.cons_append] at hm
    exact hm

theorem headOk_pyStrip (l : List Char) : headOk (pyStrip l) := by
  obtain ⟨u, hu⟩ := exists_prefix_dropTrailing (dropLeadingWs l)
  exact headOk_of_prefix _ u _ hu (headOk_dropWhile l)

theorem lastOk_pyStrip (l : List Char) : lastOk (pyStrip l) := by
  rw [lastOk, pyStrip, dropTrailingWs, List.reverse_reverse]
  exact headOk_dropWhile _

theorem pyStrip_eq_self (m : List Char) (h1 : headOk m) (h2 : lastOk m) :
    pyStrip m = m := by
  rw [pyStrip, dropLeadingWs, dropWhile_eq_self_of_headOk m h1, dropTrailingWs,
      dropWhile_eq_self_of_headOk m.reverse h2, List.reverse_reverse]

/-! ## Newline splitting and joining (for Claim C4) -/

theorem splitOnChar_of_not_mem (sep : Char) :
    ∀ l : List Char, sep ∉ l → splitOnChar sep l = [l] := by
  intro l
  induction l with
  | nil => intro _; rfl
  | cons c rest ih =>
    intro h
    have hrest : sep ∉ rest := fun hr => h (List.mem_cons_of_mem c hr)
    have hc : ¬(c = sep) := fun hc => h (hc ▸ List.mem_cons_self c rest)
    rw [splitOnChar, ih hrest]
    dsimp only
    rw [if_neg hc]

theorem intercalate_singleton (s x : List Char) : List.intercalate s [x] = x := by
  simp [List.intercalate]

theorem not_newline_mem_of_wsNormal (l : List Char) (h : wsNormal l) : '\n' ∉ l := by
  intro hmem
  have := h '\n' hmem (by decide)
  exact absurd this (by decide)

/-! ## Closed form of the processor `clean_text` on allowed inputs (Claim C4) -/

theorem cleanText_closed_form (t : String)
    (hall : ∀ c ∈ t.data, allowedChar c = true) :
    cleanText t
      = if (pyStrip (collapseWs t.data)).length > 2
        then String.mk (pyStrip (collapseWs t.data)) else "" := by
  by_cases hemp : t.data.isEmpty
  · have hnil : t.data = [] := List.isEmpty_iff.mp hemp
    rw [cleanText, if_pos hemp, hnil]
    rfl
  · have hallC : ∀ c ∈ collapseWs t.data, allowedChar c = true := by
      intro c hc
      rcases mem_collapseWsAux t.data false c hc with h | rfl
      · exact hall c h
      · decide
    have hfilter : (collapseWs t.data).filter allowedChar = collapseWs t.data :=
      List.filter_eq_self.mpr hallC
    have hnonl : '\n' ∉ collapseWs t.data :=
      not_newline_mem_of_wsNormal _ (wsNormal_collapseWsAux t.data false)
    rw [cleanText, if_neg hemp]
    dsimp only
    rw [hfilter, splitOnChar_of_not_mem '\n' _ hnonl]
    rw [List.filterMap_cons, List.filterMap_nil]
    by_cases hlen : (pyStrip (collapseWs t.data)).length > 2
    · rw [if_pos hlen]
      dsimp only
      rw [intercalate_singleton,
          pyStrip_eq_self _ (headOk_pyStrip _) (lastOk_pyStrip _), if_pos hlen]
    · rw [if_neg hlen]
      dsimp only
      rw [if_neg hlen]
      rfl

/-- A normalised list (all-allowed characters, all whitespace plain single
non-adjacent spaces, no leading/trailing space, length > 2) is a fixed point
of the processor `clean_text`. -/
theorem cleanText_fixed (v : List Char) (hall : ∀ c ∈ v, allowedChar c = true)
    (hws : wsNormal v) (hna : noAdj v) (hhead : headOk v) (hlast : lastOk v)
    (hlen : v.length > 2) :
    cleanText (String.mk v) = String.mk v := by
  have hallv : ∀ c ∈ (String.mk v).data, allowedChar c = true := hall
  rw [cleanText_closed_form (String.mk v) hallv]
  show (if (pyStrip (collapseWs v)).length > 2
        then String.mk (pyStrip (collapseWs v)) else "") = String.mk v
  rw [collapseWs, (collapseWsAux_eq_self v hws hna).1,
      pyStrip_eq_self v hhead hlast, if_pos hlen]

/-! ## Claim C4: idempotence of `clean_text` -/

/-- Claim C4, amended.  Both `clean_text` implementations are total pure Lean
functions (no failure path, empty string included).  The standalone
`src/utils.py` variant (whitespace collapse + strip) is idempotent on every
string.  The processor `src/processor/utils.py` variant is idempotent on
every string whose characters all lie in its allow-list; on other strings
idempotence can fail, because the disallowed characters are deleted *after*
whitespace collapsing, so a deleted character separating two whitespace runs
leaves a double space that only the second pass collapses (see the
counterexample `clean_text("a # b") = "a  b"` vs `clean_text("a  b") = "a b"`). -/
theorem cleanText_idempotent_amended :
    (∀ t : String, (∀ c ∈ t.data, allowedChar c = true) →
       cleanText (cleanText t) = cleanText t) ∧
    (∀ t : String, cleanTextSimple (cleanTextSimple t) = cleanTextSimple t) := by
  constructor
  · intro t hall
    rw [cleanText_closed_form t hall]
    by_cases hlen : (pyStrip (collapseWs t.data)).length > 2
    · rw [if_pos hlen]
      apply cleanText_fixed
      · intro c hc
        rcases mem_collapseWsAux t.data false c (mem_pyStrip c _ hc) with h | rfl
        · exact hall c h
        · decide
      · exact fun c hc hsp =>
          wsNormal_collapseWsAux t.data false c (mem_pyStrip c _ hc) hsp
      · exact noAdj_pyStrip _ (noAdj_collapseWsAux t.data false)
      · exact headOk_pyStrip _
      · exact lastOk_pyStrip _
      · exact hlen
    · rw [if_neg hlen]
      rfl
  · intro t
    by_cases hemp : t.data.isEmpty
    · have h1 : cleanTextSimple t = "" := by rw [cleanTextSimple, if_pos hemp]
      rw [h1]
      rfl
    · have h1 : cleanTextSimple t = String.mk (pyStrip (collapseWs t.data)) := by
        rw [cleanTextSimple, if_neg hemp]
      rw [h1]
      have hws : wsNormal (pyStrip (collapseWs t.data)) := fun c hc hsp =>
        wsNormal_collapseWsAux t.data false c (mem_pyStrip c _ hc) hsp
      have hna : noAdj (pyStrip (collapseWs t.data)) :=
        noAdj_pyStrip _ (noAdj_collapseWsAux t.data false)
      by_cases hw : (pyStrip (collapseWs t.data)).isEmpty
      · rw [List.isEmpty_iff.mp hw]
        rfl
      · have h2 : cleanTextSimple (String.mk (pyStrip (collapseWs t.data)))
            = String.mk (pyStrip (collapseWs (pyStrip (collapseWs t.data)))) := by
          rw [cleanTextSimple]
          exact if_neg (by simpa using hw)
        rw [h2, collapseWs, (collapseWsAux_eq_self _ hws hna).1,
            pyStrip_eq_self _ (headOk_pyStrip _) (lastOk_pyStrip _)]

/-- Counterexample to C4 as stated: the processor `clean_text` is not
idempotent on `"a # b"` — the `#` is deleted after whitespace collapsing,
leaving the double space `"a  b"`, which a second pass shrinks to `"a b"`. -/
theorem cleanText_not_idempotent_counterexample :
    cleanText (cleanText "a # b") ≠ cleanText "a # b" ∧
    cleanText "a # b" = "a  b" ∧ cleanText "a  b" = "a b" := by decide

/-- Witness for C4 (amended) on concrete inputs: an allow-list-only string for
the processor variant and an arbitrary string for the standalone variant. -/
theorem cleanText_idempotent_amended_witness :
    cleanText (cleanText "Total amount: $250.00") = cleanText "Total amount: $250.00" ∧
    cleanTextSimple (cleanTextSimple "  a  b ") = cleanTextSimple "  a  b " :=
  ⟨cleanText_idempotent_amended.1 "Total amount: $250.00" (by decide),
   cleanText_idempotent_amended.2 "  a  b "⟩

end MLDoc
